import Mathlib

/-!
Verification of the to-do manager in src/script.js: a shallow embedding of
its task data model, store mutations, derived-view computation, persistence
loading and reminder scheduling, with theorems settling the specification
claims. Values of JavaScript origin are embedded explicitly: machine numbers
as Int/Nat, nullable strings as Option String, and the relevant coercion
rules (falsiness, ToNumber, the NaN case of the Array.prototype.sort
comparator) as small definitions of their own.
-/

namespace TodoApp

/-- A subtask as the app stores it: display text and a done flag. -/
structure Subtask where
  text : String
  done : Bool
deriving DecidableEq

/-- A task as the submit handler creates it (src/script.js lines 405-415).
`due` holds the raw date-input string (the code stores `dateInput.value`, a
YYYY-MM-DD string) or `none` for the stored `null`; `created` is the
`Date.now()` millisecond reading. -/
structure Task where
  id : String
  text : String
  category : String
  priority : String
  due : Option String
  created : Int
  completed : Bool
  subtasks : List Subtask
  reminded : Bool
deriving DecidableEq

/-- JS whitespace for `String.prototype.trim`. -/
def isWsCh (c : Char) : Bool :=
  c = ' ' || c = '\n' || c = '\t' || c = '\r'

/-- Model of the platform builtin `String.prototype.trim`: whitespace
stripped from both ends. -/
def trimJs (s : String) : String :=
  String.mk (((s.data.dropWhile isWsCh).reverse.dropWhile isWsCh).reverse)

/-- JS `Array.prototype.findIndex`: index of the first match, -1 when none. -/
def findIndexJs (p : α → Bool) : List α → Int
  | [] => -1
  | a :: rest =>
    if p a then 0
    else if findIndexJs p rest < 0 then -1 else findIndexJs p rest + 1

/-- JS `splice(i, 1)`: the list with the element at index `i` removed
(unchanged when `i` is out of range, as splice removes nothing there). -/
def eraseAt : List α → Nat → List α
  | [], _ => []
  | _ :: rest, 0 => rest
  | a :: rest, n + 1 => a :: eraseAt rest n

/-- JS `splice(i, 0, x)`: `x` inserted at index `i` (appended when `i`
exceeds the length, as splice clamps the start index). -/
def insertAt (n : Nat) (x : α) (l : List α) : List α :=
  l.take n ++ x :: l.drop n

/-- `reorderTasks` (src/script.js lines 392-398): both indices are computed
before the removal, then the `fromId` task is removed and reinserted at the
pre-removal index of `toId`. -/
def reorderTasks (fromId toId : String) (tasks : List Task) : List Task :=
  let fromIdx := findIndexJs (fun t => t.id == fromId) tasks
  let toIdx := findIndexJs (fun t => t.id == toId) tasks
  if fromIdx < 0 ∨ toIdx < 0 then tasks
  else
    match tasks[fromIdx.toNat]? with
    | some item => insertAt toIdx.toNat item (eraseAt tasks fromIdx.toNat)
    | none => tasks

theorem findIndexJs_nonneg_lt (p : α → Bool) (l : List α)
    (h : 0 ≤ findIndexJs p l) : (findIndexJs p l).toNat < l.length := by
  induction l with
  | nil => simp [findIndexJs] at h
  | cons a rest ih =>
    by_cases hp : p a
    · simp [findIndexJs, hp]
    · by_cases hr : findIndexJs p rest < 0
      · simp [findIndexJs, hp, hr] at h
      · have hle : 0 ≤ findIndexJs p rest := by omega
        have := ih hle
        simp only [findIndexJs, hp, if_false, hr, List.length_cons]
        simp only [Bool.false_eq_true, if_false]
        omega

theorem eraseAt_perm (l : List α) (i : Nat) (x : α) (h : l[i]? = some x) :
    l.Perm (x :: eraseAt l i) := by
  induction l generalizing i with
  | nil => simp at h
  | cons a rest ih =>
    cases i with
    | zero =>
      simp only [List.getElem?_cons_zero, Option.some.injEq] at h
      subst h
      exact List.Perm.refl _
    | succ n =>
      simp only [List.getElem?_cons_succ] at h
      exact ((ih n h).cons a).trans (List.Perm.swap x a _)

theorem insertAt_perm (n : Nat) (x : α) (l : List α) :
    (insertAt n x l).Perm (x :: l) := by
  have h1 : (l.take n ++ x :: l.drop n).Perm (x :: (l.take n ++ l.drop n)) :=
    List.perm_middle
  rw [List.take_append_drop] at h1
  exact h1

/-- C9: when both ids occur in the list, `reorderTasks` produces a
permutation of its input: no task is lost or duplicated, every task record
is unchanged, only the order of the sequence changes. -/
theorem reorderTasks_perm_c9 (fromId toId : String) (tasks : List Task)
    (h1 : 0 ≤ findIndexJs (fun t => t.id == fromId) tasks)
    (h2 : 0 ≤ findIndexJs (fun t => t.id == toId) tasks) :
    (reorderTasks fromId toId tasks).Perm tasks := by
  unfold reorderTasks
  have hlt := findIndexJs_nonneg_lt (fun t => t.id == fromId) tasks h1
  rw [if_neg (by omega)]
  rw [List.getElem?_eq_getElem hlt]
  exact (insertAt_perm _ _ _).trans
    (eraseAt_perm tasks _ _ (List.getElem?_eq_getElem hlt)).symm

/-- A concrete task record used by the concrete-input theorems. -/
def sampleTask (i : String) : Task :=
  { id := i, text := i, category := "Work", priority := "Low", due := none,
    created := 0, completed := false, subtasks := [], reminded := false }

/-- Witness for C9 at a concrete input: reordering "a" onto "c" in a
three-task list yields a permutation of that list. -/
theorem reorderTasks_perm_c9_witness :
    (reorderTasks "a" "c" [sampleTask "a", sampleTask "b", sampleTask "c"]).Perm
      [sampleTask "a", sampleTask "b", sampleTask "c"] :=
  reorderTasks_perm_c9 "a" "c"
    [sampleTask "a", sampleTask "b", sampleTask "c"] (by decide) (by decide)

/-- C1: the code computes the `toId` index before the removal, so moving "a"
onto "c" in [a, b, c] yields [b, c, a]; the claim (insert at the index "c"
holds after the removal) demands [b, a, c]. -/
theorem reorderTasks_pre_removal_c1 :
    reorderTasks "a" "c" [sampleTask "a", sampleTask "b", sampleTask "c"] =
      [sampleTask "b", sampleTask "c", sampleTask "a"] ∧
    reorderTasks "a" "c" [sampleTask "a", sampleTask "b", sampleTask "c"] ≠
      [sampleTask "b", sampleTask "a", sampleTask "c"] := by
  exact ⟨by decide, by decide⟩

/-- C5: `reorderTasks` is not idempotent: on [a, b], one call gives [b, a]
and an immediate second call undoes it, giving back [a, b]. -/
theorem reorderTasks_not_idempotent_c5 :
    reorderTasks "a" "b" (reorderTasks "a" "b" [sampleTask "a", sampleTask "b"]) ≠
      reorderTasks "a" "b" [sampleTask "a", sampleTask "b"] := by
  decide

/-- `updateTaskProgress` (src/script.js lines 259-284), the part that writes
the task state: with a non-empty subtask list it overwrites `completed` with
`done === total && total > 0` where `done` counts the subtasks with
`done = true`; with no subtasks it leaves `completed` untouched. -/
def updateTaskProgressTask (t : Task) : Task :=
  if t.subtasks.length ≠ 0 then
    let total := t.subtasks.length
    let done := (t.subtasks.filter (fun s => s.done)).length
    { t with completed := (done == total) && decide (0 < total) }
  else t

/-- The subcheck click handler (src/script.js lines 226-232): flip `done` of
the subtask at `i`, then `updateTaskProgress` recomputes `completed`. -/
def toggleSubDone : List Subtask → Nat → List Subtask
  | [], _ => []
  | s :: rest, 0 => { s with done := !s.done } :: rest
  | s :: rest, n + 1 => s :: toggleSubDone rest n

def subcheckClick (i : Nat) (t : Task) : Task :=
  updateTaskProgressTask { t with subtasks := toggleSubDone t.subtasks i }

/-- The delete-sub click handler (src/script.js lines 234-240): splice the
subtask at `i` out, then `updateTaskProgress` recomputes `completed`. -/
def deleteSubClick (i : Nat) (t : Task) : Task :=
  updateTaskProgressTask { t with subtasks := eraseAt t.subtasks i }

/-- The add-sub click handler (src/script.js lines 289-298): no-op on empty
trimmed text, otherwise push an undone subtask and recompute via
`updateTaskProgress` (through renderSubtasks). -/
def addSubClick (raw : String) (t : Task) : Task :=
  let text := trimJs raw
  if text = "" then t
  else
    updateTaskProgressTask
      { t with subtasks := t.subtasks ++ [{ text := text, done := false }] }

/-- The checkBtn click handler (src/script.js lines 307-319): with subtasks,
set the `done` of every subtask to the negation of all-done and `completed`
likewise; without subtasks, flip `completed`. renderSubtasks then runs
`updateTaskProgress` in both cases. -/
def checkBtnClick (t : Task) : Task :=
  updateTaskProgressTask
    (if t.subtasks.length ≠ 0 then
      let allDone := t.subtasks.all (fun s => s.done)
      { t with subtasks := t.subtasks.map (fun s => { s with done := !allDone }),
               completed := !allDone }
    else { t with completed := !t.completed })

/-- The four store mutations of claim C2, dispatched to the handlers above. -/
inductive SubMutation
  | subcheck (i : Nat)
  | deleteSub (i : Nat)
  | addSub (raw : String)
  | checkBtn
deriving DecidableEq

def applyMutation : SubMutation → Task → Task
  | .subcheck i => subcheckClick i
  | .deleteSub i => deleteSubClick i
  | .addSub raw => addSubClick raw
  | .checkBtn => checkBtnClick

theorem filter_done_length_eq (l : List Subtask) :
    ((l.filter (fun s => s.done)).length == l.length) =
      l.all (fun s => s.done) := by
  induction l with
  | nil => rfl
  | cons s rest ih =>
    by_cases hd : s.done
    · simp [List.filter_cons, hd, ih]
    · have hle := List.length_filter_le (fun s => s.done) rest
      simp only [List.filter_cons, hd, Bool.false_eq_true, if_false,
        List.length_cons, List.all_cons, Bool.false_and]
      exact beq_eq_false_iff_ne.mpr (by omega)

theorem updateTaskProgressTask_subtasks (t : Task) :
    (updateTaskProgressTask t).subtasks = t.subtasks := by
  unfold updateTaskProgressTask
  split <;> rfl

theorem updateTaskProgressTask_completed (t : Task) (h : t.subtasks ≠ []) :
    (updateTaskProgressTask t).completed = t.subtasks.all (fun s => s.done) := by
  unfold updateTaskProgressTask
  rw [if_pos (by simpa [List.length_eq_zero] using h)]
  have hpos : 0 < t.subtasks.length := by
    cases hl : t.subtasks with
    | nil => exact absurd hl h
    | cons a l => simp
  simp only [filter_done_length_eq, decide_eq_true hpos, Bool.and_true]

theorem updateTaskProgressTask_inv (t : Task)
    (h : (updateTaskProgressTask t).subtasks ≠ []) :
    (updateTaskProgressTask t).completed =
      (updateTaskProgressTask t).subtasks.all (fun s => s.done) := by
  rw [updateTaskProgressTask_subtasks] at h ⊢
  exact updateTaskProgressTask_completed t h

/-- C2: after any subtask mutation (subtask toggle, removal, a valid subtask
add, or a completion toggle), if the subtask list of the task is non-empty the
`completed` flag equals "every subtask is done": `updateTaskProgress`
recomputes it after each such mutation. -/
theorem completed_invariant_c2 (m : SubMutation) (t : Task)
    (hm : ∀ raw, m = SubMutation.addSub raw → trimJs raw ≠ "")
    (hne : (applyMutation m t).subtasks ≠ []) :
    (applyMutation m t).completed =
      (applyMutation m t).subtasks.all (fun s => s.done) := by
  cases m with
  | subcheck i =>
    simp only [applyMutation, subcheckClick] at hne ⊢
    exact updateTaskProgressTask_inv _ hne
  | deleteSub i =>
    simp only [applyMutation, deleteSubClick] at hne ⊢
    exact updateTaskProgressTask_inv _ hne
  | addSub raw =>
    have hraw : trimJs raw ≠ "" := hm raw rfl
    simp only [applyMutation, addSubClick, if_neg hraw] at hne ⊢
    exact updateTaskProgressTask_inv _ hne
  | checkBtn =>
    simp only [applyMutation, checkBtnClick] at hne ⊢
    exact updateTaskProgressTask_inv _ hne

/-- A concrete task with one undone subtask, for the C2 witness. -/
def sampleSubTask : Task :=
  { sampleTask "s" with subtasks := [{ text := "A", done := false }] }

/-- Witness for C2 at a concrete input: toggling the only (undone) subtask
leaves a non-empty subtask list and sets `completed` to all-done = true. -/
theorem completed_invariant_c2_witness :
    (applyMutation (SubMutation.subcheck 0) sampleSubTask).completed =
      (applyMutation (SubMutation.subcheck 0) sampleSubTask).subtasks.all
        (fun s => s.done) :=
  completed_invariant_c2 (SubMutation.subcheck 0) sampleSubTask
    (fun raw h => by cases h) (by decide)

/-- JS falsiness of the stored `task.due` (`null` or the empty string). -/
def jsFalsyDue : Option String → Bool
  | none => true
  | some s => s == ""

/-- `scheduleReminders` (src/script.js lines 65-89), the per-task state
change: skip when `due` is falsy or `reminded` is set; otherwise with
`due = dateMs s` (the `new Date(s).getTime()` reading, passed in as a
function since date parsing is a platform builtin) and
`remindAt = due - 30min`, mark `reminded` when `remindAt` is in the future
and less than 24h away, or when `remindAt` has passed but `due` has not.
The notification side effects are external and carry no task state. -/
def schedRemTask (dateMs : String → Int) (now : Int) (t : Task) : Task :=
  if jsFalsyDue t.due || t.reminded then t
  else
    let due := dateMs (t.due.getD "")
    let remindAt := due - 30 * 60 * 1000
    if remindAt > now ∧ remindAt - now < 24 * 3600 * 1000 then
      { t with reminded := true }
    else if remindAt ≤ now ∧ due > now ∧ t.reminded = false then
      { t with reminded := true }
    else t

/-- The whole `scheduleReminders` pass: the `tasks.forEach` body applied to
each task in place. -/
def scheduleReminders (dateMs : String → Int) (now : Int)
    (tasks : List Task) : List Task :=
  tasks.map (schedRemTask dateMs now)

/-- C3: evaluating reminders at `now` sets `reminded` exactly when the task
has a (non-falsy) due date, `reminded` is still false, and either the
remind-at point (due - 30min) is in the future by less than 24h, or it has
passed while the due date has not; in every other case the task, its
`reminded` flag included, is left unchanged. -/
theorem schedRemTask_characterization_c3 (dateMs : String → Int) (now : Int)
    (t : Task) :
    schedRemTask dateMs now t =
      if jsFalsyDue t.due = false ∧ t.reminded = false ∧
          ((dateMs (t.due.getD "") - 30 * 60 * 1000 > now ∧
            dateMs (t.due.getD "") - 30 * 60 * 1000 - now < 24 * 3600 * 1000) ∨
           (dateMs (t.due.getD "") - 30 * 60 * 1000 ≤ now ∧
            dateMs (t.due.getD "") > now))
      then { t with reminded := true } else t := by
  unfold schedRemTask
  by_cases hf : jsFalsyDue t.due
  · simp [hf]
  · by_cases hr : t.reminded
    · simp [hf, hr]
    · simp only [hf, hr, Bool.or_self, Bool.false_eq_true, if_false,
        Bool.not_eq_true] at *
      split
      · rename_i h1
        rw [if_pos]
        exact ⟨by simp [hf], by simp [hr], Or.inl h1⟩
      · rename_i h1
        split
        · rename_i h2
          rw [if_pos]
          exact ⟨by simp [hf], by simp [hr], Or.inr ⟨h2.1, h2.2.1⟩⟩
        · rename_i h2
          rw [if_neg]
          intro hc
          rcases hc.2.2 with hcl | hcr
          · exact h1 hcl
          · exact h2 ⟨hcr.1, hcr.2, by simp [hr]⟩

/-- A base-36 digit as `Number.prototype.toString(36)` writes it:
0-9 then a-z. -/
def b36digit (n : Nat) : Char :=
  if n < 10 then Char.ofNat (48 + n) else Char.ofNat (87 + n)

def natToB36Go : Nat → Nat → List Char
  | 0, _ => []
  | fuel + 1, n =>
    if n = 0 then [] else natToB36Go fuel (n / 36) ++ [b36digit (n % 36)]

/-- `Date.now().toString(36)`: the millisecond count written in base 36. -/
def natToB36 (n : Nat) : String :=
  if n = 0 then "0" else String.mk (natToB36Go (n + 1) n)

/-- `uid` (src/script.js line 36): the current time in base 36 concatenated
with a random suffix, `Math.random().toString(36).slice(2,6)`. The clock
reading and the random suffix are external inputs of the function. -/
def uid (nowMs : Nat) (rnd : String) : String :=
  natToB36 nowMs ++ rnd

/-- One submit of the task form, with the external inputs a call consumes:
the four form fields, the `Date.now()` readings and the random suffix. -/
structure AddCall where
  textInput : String
  category : String
  priority : String
  dateValue : String
  nowMs : Nat
  createdMs : Int
  rnd : String
deriving DecidableEq

/-- The task-form submit handler (src/script.js lines 401-423): no-op when
the text trims to empty; otherwise a new task is built (`due` is
`dateInput.value || null`, so the empty string becomes `none`) and unshifted
onto the front of the list. `nowMs` is the `Date.now()` reading inside
`uid()` and `createdMs` the one for the `created` field. -/
def submitHandler (call : AddCall) (tasks : List Task) : List Task :=
  let text := trimJs call.textInput
  if text = "" then tasks
  else
    { id := uid call.nowMs call.rnd, text := text, category := call.category,
      priority := call.priority,
      due := if call.dateValue = "" then none else some call.dateValue,
      created := call.createdMs, completed := false, subtasks := [],
      reminded := false } :: tasks

/-- A sequence of submits applied in call order. -/
def runAdds (tasks : List Task) (calls : List AddCall) : List Task :=
  calls.foldl (fun ts c => submitHandler c ts) tasks

/-- C10: a valid add whose due-date input is the empty string creates a task
with `due = none` (as with no due date at all), `completed = false`,
`reminded = false`, empty subtasks, prepended to the front of the list. -/
theorem submit_empty_due_c10 (call : AddCall) (tasks : List Task)
    (hval : trimJs call.textInput ≠ "") (hdate : call.dateValue = "") :
    submitHandler call tasks =
      { id := uid call.nowMs call.rnd, text := trimJs call.textInput,
        category := call.category, priority := call.priority, due := none,
        created := call.createdMs, completed := false, subtasks := [],
        reminded := false } :: tasks := by
  unfold submitHandler
  rw [if_neg hval, if_pos hdate]

/-- A concrete form submission for the C10 witness. -/
def sampleCall : AddCall :=
  { textInput := " Buy milk ", category := "Personal", priority := "Low",
    dateValue := "", nowMs := 77, createdMs := 77, rnd := "qrst" }

/-- Witness for C10 at a concrete input: submitting " Buy milk " with an
empty date input prepends the expected task with `due = none`. -/
theorem submit_empty_due_c10_witness :
    submitHandler sampleCall [] =
      [{ id := uid sampleCall.nowMs sampleCall.rnd,
         text := trimJs sampleCall.textInput, category := sampleCall.category,
         priority := sampleCall.priority, due := none,
         created := sampleCall.createdMs, completed := false, subtasks := [],
         reminded := false }] :=
  submit_empty_due_c10 sampleCall [] (by decide) (by decide)

/-- C8 as stated fails: two valid adds in the same millisecond whose random
suffixes collide produce the same id twice, so the ids in the store are not
pairwise distinct. -/
def dupCall : AddCall :=
  { textInput := "x", category := "Work", priority := "Low", dateValue := "",
    nowMs := 5, createdMs := 5, rnd := "abcd" }

theorem add_ids_collide_c8 :
    ¬ ((runAdds [] [dupCall, dupCall]).map Task.id).Nodup := by
  intro h
  have hids : (runAdds [] [dupCall, dupCall]).map Task.id =
      ["5abcd", "5abcd"] := by decide
  rw [hids] at h
  simp at h

theorem runAdds_ids (tasks : List Task) (calls : List AddCall)
    (hvalid : ∀ c ∈ calls, trimJs c.textInput ≠ "") :
    ((runAdds tasks calls).map Task.id).Perm
      (calls.map (fun c => uid c.nowMs c.rnd) ++ tasks.map Task.id) := by
  induction calls generalizing tasks with
  | nil => simp [runAdds]
  | cons c cs ih =>
    have hc : trimJs c.textInput ≠ "" := hvalid c (by simp)
    have hstep : runAdds tasks (c :: cs) =
        runAdds (submitHandler c tasks) cs := rfl
    rw [hstep]
    have hmap : (submitHandler c tasks).map Task.id =
        uid c.nowMs c.rnd :: tasks.map Task.id := by
      unfold submitHandler
      rw [if_neg hc]
      rfl
    have ihs := ih (submitHandler c tasks) (fun d hd => hvalid d (by simp [hd]))
    rw [hmap] at ihs
    refine ihs.trans ?_
    simp only [List.map_cons, List.cons_append]
    exact List.perm_middle

/-- C8 amended: after any sequence of valid adds, the ids in the store are
pairwise distinct provided the ids `uid` generates for those calls are
pairwise distinct and distinct from every id already in the store; `uid`
itself does not guarantee this (same-millisecond calls with an equal random
suffix collide, see the counterexample). -/
theorem add_ids_nodup_c8 (tasks : List Task) (calls : List AddCall)
    (hvalid : ∀ c ∈ calls, trimJs c.textInput ≠ "")
    (hfresh : (calls.map (fun c => uid c.nowMs c.rnd) ++
        tasks.map Task.id).Nodup) :
    ((runAdds tasks calls).map Task.id).Nodup :=
  ((runAdds_ids tasks calls hvalid).nodup_iff).mpr hfresh

/-- JSON values as `JSON.parse` returns them (numbers restricted to the
integers the subset of this model parses). -/
inductive JsValue where
  | null
  | bool (b : Bool)
  | num (n : Int)
  | str (s : String)
  | arr (elems : List JsValue)
  | obj (fields : List (String × JsValue))

def lbraceCh : Char := Char.ofNat 123

def rbraceCh : Char := Char.ofNat 125

def skipWs (cs : List Char) : List Char := cs.dropWhile isWsCh

def isDigitCh (c : Char) : Bool := decide ('0' ≤ c) && decide (c ≤ '9')

def digitsVal (cs : List Char) : Nat :=
  cs.foldl (fun acc c => acc * 10 + (c.toNat - 48)) 0

/-- Body of a JSON string literal: the characters up to the closing quote.
Escapes are outside the subset of this model (none on a backslash). -/
def parseStrLit : List Char → Option (String × List Char)
  | [] => none
  | c :: rest =>
    if c = '"' then some ("", rest)
    else if c = '\\' then none
    else
      match parseStrLit rest with
      | some (s, r) => some (String.mk (c :: s.data), r)
      | none => none

/-- Model of the platform builtin `JSON.parse` on the subset the stored data
can hit: null, true, false, integer numbers, escape-free strings, arrays and
objects (decimals, exponents and escapes are outside the subset). Parses one
value and returns the remaining text; the fuel bounds nesting and element
count and is in surplus as `jsonParse` calls it. After an element and a comma
the rest of an array (object) is parsed as the array (object) starting at a
reinserted opening bracket. -/
def parseVal : Nat → List Char → Option (JsValue × List Char)
  | 0, _ => none
  | fuel + 1, cs =>
    match skipWs cs with
    | [] => none
    | c :: rest =>
      if c = 'n' then
        match rest with
        | 'u' :: 'l' :: 'l' :: r => some (JsValue.null, r)
        | _ => none
      else if c = 't' then
        match rest with
        | 'r' :: 'u' :: 'e' :: r => some (JsValue.bool true, r)
        | _ => none
      else if c = 'f' then
        match rest with
        | 'a' :: 'l' :: 's' :: 'e' :: r => some (JsValue.bool false, r)
        | _ => none
      else if c = '"' then
        match parseStrLit rest with
        | some (s, r) => some (JsValue.str s, r)
        | none => none
      else if c = '[' then
        match skipWs rest with
        | ']' :: r => some (JsValue.arr [], r)
        | cs2 =>
          match parseVal fuel cs2 with
          | some (v, r) =>
            match skipWs r with
            | ',' :: r2 =>
              match parseVal fuel ('[' :: r2) with
              | some (JsValue.arr vs, r3) => some (JsValue.arr (v :: vs), r3)
              | _ => none
            | ']' :: r2 => some (JsValue.arr [v], r2)
            | _ => none
          | none => none
      else if c = lbraceCh then
        match skipWs rest with
        | [] => none
        | c2 :: cs2 =>
          if c2 = rbraceCh then some (JsValue.obj [], cs2)
          else if c2 = '"' then
            match parseStrLit cs2 with
            | some (k, r) =>
              match skipWs r with
              | ':' :: r2 =>
                match parseVal fuel r2 with
                | some (v, r3) =>
                  match skipWs r3 with
                  | c4 :: r4 =>
                    if c4 = ',' then
                      match parseVal fuel (lbraceCh :: r4) with
                      | some (JsValue.obj fs, r5) =>
                        some (JsValue.obj ((k, v) :: fs), r5)
                      | _ => none
                    else if c4 = rbraceCh then some (JsValue.obj [(k, v)], r4)
                    else none
                  | [] => none
                | none => none
              | _ => none
            | none => none
          else none
      else if c = '-' then
        let ds := rest.takeWhile isDigitCh
        if ds = [] then none
        else some (JsValue.num (-(digitsVal ds : Int)), rest.dropWhile isDigitCh)
      else if isDigitCh c then
        some (JsValue.num (digitsVal ((c :: rest).takeWhile isDigitCh)),
          (c :: rest).dropWhile isDigitCh)
      else none

def jsonParse (s : String) : Option JsValue :=
  match parseVal (s.length + 2) s.data with
  | some (v, rest) => if skipWs rest = [] then some v else none
  | none => none

/-- `load` (src/script.js lines 38-42): parse the stored text — missing (or
empty, which is falsy) storage reads as the text "[]" — and on a parse
error fall back to the empty array. The parsed value becomes the store
as-is: nothing checks it is an array of task records. -/
def load (stored : Option String) : JsValue :=
  let txt :=
    match stored with
    | none => "[]"
    | some s => if s = "" then "[]" else s
  match jsonParse txt with
  | some v => v
  | none => JsValue.arr []

/-- The member call `tasks.forEach(...)` the render/progress/reminder code
performs next (src/script.js lines 68, 99, 122): defined on arrays, a
TypeError on every other value. -/
def jsForEach : JsValue → Except String (List JsValue)
  | JsValue.arr l => Except.ok l
  | _ => Except.error "TypeError"

/-- C7: `load` degrades missing and non-JSON storage to the empty array, but
a stored value of valid JSON that is not an array — here the JSON text
"hello" in quotes — is kept as-is, not degraded to the empty sequence, and
the very next `tasks.forEach` throws a TypeError: the claim fails for
non-array JSON data. -/
theorem load_nonarray_c7 :
    load none = JsValue.arr [] ∧
    load (some "not json!") = JsValue.arr [] ∧
    load (some "\"hello\"") = JsValue.str "hello" ∧
    load (some "\"hello\"") ≠ JsValue.arr [] ∧
    jsForEach (load (some "\"hello\"")) = Except.error "TypeError" := by
  refine ⟨rfl, rfl, rfl, ?_, rfl⟩
  intro h
  rw [show load (some "\"hello\"") = JsValue.str "hello" from rfl] at h
  exact JsValue.noConfusion h

/-- Two concrete submissions with distinct random suffixes, for the C8
witness. -/
def callA : AddCall :=
  { textInput := "a", category := "Work", priority := "Low", dateValue := "",
    nowMs := 5, createdMs := 5, rnd := "aaaa" }

def callB : AddCall :=
  { textInput := "b", category := "Work", priority := "High", dateValue := "",
    nowMs := 5, createdMs := 5, rnd := "bbbb" }

/-- JS number values as the sort comparators produce them. -/
inductive JsNum where
  | nan
  | posInf
  | negInf
  | num (n : Int)
deriving DecidableEq

/-- JS subtraction on those values: NaN is absorbing, Infinity minus
Infinity of the same sign is NaN. -/
def jsSub : JsNum → JsNum → JsNum
  | JsNum.nan, _ => JsNum.nan
  | _, JsNum.nan => JsNum.nan
  | JsNum.posInf, JsNum.posInf => JsNum.nan
  | JsNum.posInf, _ => JsNum.posInf
  | JsNum.negInf, JsNum.negInf => JsNum.nan
  | JsNum.negInf, _ => JsNum.negInf
  | JsNum.num _, JsNum.posInf => JsNum.negInf
  | JsNum.num _, JsNum.negInf => JsNum.posInf
  | JsNum.num a, JsNum.num b => JsNum.num (a - b)

/-- ECMAScript SortCompare applied to a comparator result: NaN counts as
zero (the elements keep their relative order), the infinities as their
sign. -/
def sortCompareVal : JsNum → Int
  | JsNum.nan => 0
  | JsNum.posInf => 1
  | JsNum.negInf => -1
  | JsNum.num n => n

/-- Model of ECMAScript ToNumber on strings, on the subset the comparators
can receive: trimmed empty text is 0, an optionally signed digit string is
that integer, anything else — a YYYY-MM-DD date string included, its
interior dashes are no numeric literal — is NaN. Decimals and exponents are
outside the subset; no stored `due` value has them. -/
def jsToNumber (s : String) : JsNum :=
  let t := (trimJs s).data
  if t = [] then JsNum.num 0
  else if t.all isDigitCh then JsNum.num (digitsVal t)
  else
    match t with
    | '-' :: rest =>
      if rest ≠ [] ∧ rest.all isDigitCh then
        JsNum.num (-(digitsVal rest : Int))
      else JsNum.nan
    | '+' :: rest =>
      if rest ≠ [] ∧ rest.all isDigitCh then JsNum.num (digitsVal rest)
      else JsNum.nan
    | _ => JsNum.nan

/-- The dateAsc comparator operand `a.due || Infinity` as the subtraction
coerces it: null and the empty string (falsy) give +Infinity, any other
string its ToNumber value. -/
def dueOrInf : Option String → JsNum
  | none => JsNum.posInf
  | some s => if s = "" then JsNum.posInf else jsToNumber s

/-- The dateDesc comparator operand `b.due || 0`. -/
def dueOrZero : Option String → JsNum
  | none => JsNum.num 0
  | some s => if s = "" then JsNum.num 0 else jsToNumber s

def cmpDateAsc (a b : Task) : Int :=
  sortCompareVal (jsSub (dueOrInf a.due) (dueOrInf b.due))

def cmpDateDesc (a b : Task) : Int :=
  sortCompareVal (jsSub (dueOrZero b.due) (dueOrZero a.due))

def cmpCreatedDesc (a b : Task) : Int :=
  sortCompareVal (JsNum.num (b.created - a.created))

/-- The priority map p with `p[x] || 0` for unknown priorities. -/
def priorityVal (p : String) : Int :=
  if p = "High" then 3 else if p = "Medium" then 2
  else if p = "Low" then 1 else 0

def cmpPriorityDesc (a b : Task) : Int :=
  sortCompareVal (JsNum.num (priorityVal b.priority - priorityVal a.priority))

/-- `Array.prototype.sort` with a JS comparator, modelled as a stable
insertion sort: an element is placed before the first element of the sorted
tail it does not compare greater than. For a consistent comparator (the only
case a theorem below relies on: every comparison yields NaN, hence
SortCompare 0) ECMAScript determines the result and any stable sort agrees
with it. -/
def jsInsert (cmp : α → α → Int) (a : α) : List α → List α
  | [] => [a]
  | b :: l => if cmp a b > 0 then b :: jsInsert cmp a l else a :: b :: l

def jsSortList (cmp : α → α → Int) : List α → List α
  | [] => []
  | a :: l => jsInsert cmp a (jsSortList cmp l)

/-- ASCII case folding: model of the platform builtin `toLowerCase` on the
character range the app data uses. -/
def toLowerCh (c : Char) : Char :=
  if decide ('A' ≤ c) && decide (c ≤ 'Z') then Char.ofNat (c.toNat + 32)
  else c

def toLowerJs (s : String) : String := String.mk (s.data.map toLowerCh)

/-- Model of the platform builtin `String.prototype.includes`. -/
def strIncludes (hay sub : String) : Bool :=
  (List.range (hay.data.length + 1)).any
    (fun i => (hay.data.drop i).take sub.data.length == sub.data)

/-- The filter/sort criteria as the DOM controls hold them. -/
structure Criteria where
  searchValue : String
  status : String
  category : String
  sortKey : String

/-- The search predicate (src/script.js line 134): case-insensitive
substring match on the task text or any subtask text. -/
def searchPred (q : String) (t : Task) : Bool :=
  strIncludes (toLowerJs t.text) q ||
    t.subtasks.any (fun s => strIncludes (toLowerJs s.text) q)

/-- The search stage (line 134): runs only when the trimmed lowercased query
is non-empty; `some f` means the line runs and allocates a fresh filtered
array computed by `f`. -/
def searchFun (searchValue : String) : Option (List Task → List Task) :=
  let q := toLowerJs (trimJs searchValue)
  if q = "" then none else some (List.filter (searchPred q))

/-- The status stage (lines 137-141). -/
def statusFun (dateMs : String → Int) (now : Int) (status : String) :
    Option (List Task → List Task) :=
  if status = "pending" then some (List.filter (fun t => !t.completed))
  else if status = "completed" then some (List.filter (fun t => t.completed))
  else if status = "overdue" then
    some (List.filter (fun t =>
      !jsFalsyDue t.due && decide (dateMs (t.due.getD "") < now) &&
        !t.completed))
  else none

/-- The category stage (lines 144-145). -/
def catFun (category : String) : Option (List Task → List Task) :=
  if category ≠ "all" then
    some (List.filter (fun t => t.category == category))
  else none

/-- The sort stage (lines 148-155); unlike the filter stages it mutates the
current array in place rather than allocating. -/
def sortFun (sortKey : String) : Option (List Task → List Task) :=
  if sortKey = "created_desc" then some (jsSortList cmpCreatedDesc)
  else if sortKey = "date_asc" then some (jsSortList cmpDateAsc)
  else if sortKey = "date_desc" then some (jsSortList cmpDateDesc)
  else if sortKey = "priority_desc" then some (jsSortList cmpPriorityDesc)
  else none

def applyStep (l : List Task) : Option (List Task → List Task) → List Task
  | some f => f l
  | none => l

/-- The three conditional `filtered = filtered.filter(...)` stages of
`applyFilters`, in source order: search, status, category. -/
def pipelineStages (dateMs : String → Int) (now : Int) (crit : Criteria) :
    List (Option (List Task → List Task)) :=
  [searchFun crit.searchValue, statusFun dateMs now crit.status,
   catFun crit.category]

def applySteps (l : List Task) :
    List (Option (List Task → List Task)) → List Task
  | [] => l
  | o :: os => applySteps (applyStep l o) os

/-- `applyFilters` (src/script.js lines 129-157) as a function on values:
slice-copy, then the search, status and category filters in that order, then
the selected sort. -/
def applyFilters (dateMs : String → Int) (now : Int) (crit : Criteria)
    (list : List Task) : List Task :=
  applyStep (applySteps list (pipelineStages dateMs now crit))
    (sortFun crit.sortKey)

/-- A heap of arrays, for stating what `applyFilters` mutates: array
references are indices, allocation appends. -/
abbrev Heap := List (List Task)

/-- One `filtered = filtered.filter(...)` line on the heap: when the stage
runs, `filter` allocates a fresh array with the result of the stage and the local
rebinds to it; otherwise nothing happens. -/
def heapStep (h : Heap) (r : Nat) :
    Option (List Task → List Task) → Heap × Nat
  | some f => (h ++ [f (h.getD r [])], h.length)
  | none => (h, r)

def heapSteps (h : Heap) (r : Nat) :
    List (Option (List Task → List Task)) → Heap × Nat
  | [] => (h, r)
  | o :: os => heapSteps (heapStep h r o).1 (heapStep h r o).2 os

/-- `applyFilters` with the array mutation explicit: `list.slice()`
allocates the copy the local `filtered` starts from, each filter stage
allocates a fresh array, and the sort stage mutates the array `filtered`
currently references in place (`Array.prototype.sort` sorts its
receiver). -/
def applyFiltersHeap (dateMs : String → Int) (now : Int) (crit : Criteria)
    (h : Heap) (r : Nat) : Heap × Nat :=
  let s := heapSteps (h ++ [h.getD r []]) h.length
    (pipelineStages dateMs now crit)
  match sortFun crit.sortKey with
  | some f => (s.1.set s.2 (f (s.1.getD s.2 [])), s.2)
  | none => s

theorem getD_append_singleton_left (h : Heap) (x : List Task) (r : Nat)
    (hr : r < h.length) : (h ++ [x]).getD r [] = h.getD r [] := by
  induction h generalizing r with
  | nil => simp at hr
  | cons a t ih =>
    cases r with
    | zero => rfl
    | succ n =>
      simp only [List.cons_append, List.getD_cons_succ]
      exact ih n (by simpa using hr)

theorem getD_append_singleton_length (h : Heap) (x : List Task) :
    (h ++ [x]).getD h.length [] = x := by
  induction h with
  | nil => rfl
  | cons a t ih =>
    simp only [List.cons_append, List.length_cons, List.getD_cons_succ]
    exact ih

theorem getD_set_ne (h : Heap) (j : Nat) (v : List Task) (r : Nat)
    (hne : r ≠ j) : (h.set j v).getD r [] = h.getD r [] := by
  induction h generalizing r j with
  | nil => rfl
  | cons a t ih =>
    cases j with
    | zero =>
      cases r with
      | zero => exact absurd rfl hne
      | succ n => rfl
    | succ m =>
      cases r with
      | zero => rfl
      | succ n =>
        simp only [List.set_cons_succ, List.getD_cons_succ]
        exact ih m n (fun hc => hne (by rw [hc]))

theorem getD_set_self (h : Heap) (j : Nat) (v : List Task)
    (hj : j < h.length) : (h.set j v).getD j [] = v := by
  induction h generalizing j with
  | nil => simp at hj
  | cons a t ih =>
    cases j with
    | zero => rfl
    | succ m =>
      simp only [List.set_cons_succ, List.getD_cons_succ]
      exact ih m (by simpa using hj)

/-- The invariant the filter pipeline maintains on the heap: the reference
is a fresh array past the original heap, the original cell `r` is untouched,
and the referenced array holds the pure pipeline value `v`. -/
def HeapInv (h0 : Heap) (r : Nat) (v : List Task) (s : Heap × Nat) : Prop :=
  h0.length ≤ s.2 ∧ s.2 < s.1.length ∧ r < s.1.length ∧
    s.1.getD r [] = h0.getD r [] ∧ s.1.getD s.2 [] = v

theorem heapStep_inv (h0 : Heap) (r : Nat) (v : List Task) (h1 : Heap)
    (r1 : Nat) (o : Option (List Task → List Task))
    (hs : HeapInv h0 r v (h1, r1)) :
    HeapInv h0 r (applyStep v o) (heapStep h1 r1 o) := by
  obtain ⟨k1, k2, k3, k4, k5⟩ := hs
  cases o with
  | none => exact ⟨k1, k2, k3, k4, k5⟩
  | some f =>
    simp only [heapStep, applyStep, HeapInv]
    refine ⟨by simp at k2 ⊢; omega, ?_, ?_, ?_, ?_⟩
    · simp
    · simp only [List.length_append, List.length_cons, List.length_nil]
      simp at k3
      omega
    · exact (getD_append_singleton_left h1 _ r (by simp at k3; omega)).trans k4
    · rw [getD_append_singleton_length, k5]

theorem heapSteps_inv (h0 : Heap) (r : Nat)
    (os : List (Option (List Task → List Task))) (v : List Task) (h1 : Heap)
    (r1 : Nat) (hs : HeapInv h0 r v (h1, r1)) :
    HeapInv h0 r (applySteps v os) (heapSteps h1 r1 os) := by
  induction os generalizing v h1 r1 with
  | nil => exact hs
  | cons o os ih =>
    exact ih (applyStep v o) (heapStep h1 r1 o).1 (heapStep h1 r1 o).2
      (heapStep_inv h0 r v h1 r1 o hs)

/-- C6: `applyFilters` does not mutate its input array: on the heap model
the input cell is unchanged after the call, and the array the call returns
is a fresh one holding the filtered-then-sorted value of the input. -/
theorem applyFilters_no_mutation_c6 (dateMs : String → Int) (now : Int)
    (crit : Criteria) (h : Heap) (r : Nat) (hr : r < h.length) :
    ((applyFiltersHeap dateMs now crit h r).1).getD r [] = h.getD r [] ∧
    ((applyFiltersHeap dateMs now crit h r).1).getD
        ((applyFiltersHeap dateMs now crit h r).2) [] =
      applyFilters dateMs now crit (h.getD r []) := by
  have inv0 : HeapInv h r (h.getD r []) (h ++ [h.getD r []], h.length) :=
    ⟨le_refl _, by simp, by simp; omega,
      getD_append_singleton_left h _ r hr,
      getD_append_singleton_length h _⟩
  have inv := heapSteps_inv h r (pipelineStages dateMs now crit)
    (h.getD r []) (h ++ [h.getD r []]) h.length inv0
  obtain ⟨k1, k2, k3, k4, k5⟩ := inv
  unfold applyFiltersHeap applyFilters
  cases ho : sortFun crit.sortKey with
  | none =>
    simp only [ho, applyStep]
    exact ⟨k4, k5⟩
  | some f =>
    simp only [ho, applyStep]
    constructor
    · rw [getD_set_ne _ _ _ _ (by omega)]
      exact k4
    · rw [getD_set_self _ _ _ k2, k5]

/-- Witness for C6 at a concrete input: a one-array heap, every stage
active, input cell unchanged and the result the pure pipeline value. -/
theorem applyFilters_no_mutation_c6_witness :
    ((applyFiltersHeap (fun _ => 0) 0
        { searchValue := "a", status := "pending", category := "Work",
          sortKey := "date_asc" } [[sampleTask "a"]] 0).1).getD 0 [] =
      ([[sampleTask "a"]] : Heap).getD 0 [] ∧
    ((applyFiltersHeap (fun _ => 0) 0
        { searchValue := "a", status := "pending", category := "Work",
          sortKey := "date_asc" } [[sampleTask "a"]] 0).1).getD
        ((applyFiltersHeap (fun _ => 0) 0
          { searchValue := "a", status := "pending", category := "Work",
            sortKey := "date_asc" } [[sampleTask "a"]] 0).2) [] =
      applyFilters (fun _ => 0) 0
        { searchValue := "a", status := "pending", category := "Work",
          sortKey := "date_asc" } (([[sampleTask "a"]] : Heap).getD 0 []) :=
  applyFilters_no_mutation_c6 (fun _ => 0) 0
    { searchValue := "a", status := "pending", category := "Work",
      sortKey := "date_asc" } [[sampleTask "a"]] 0 (by decide)

theorem jsSortList_all_zero (cmp : α → α → Int) (l : List α)
    (h : ∀ a ∈ l, ∀ b ∈ l, cmp a b = 0) : jsSortList cmp l = l := by
  induction l with
  | nil => rfl
  | cons a t ih =>
    show jsInsert cmp a (jsSortList cmp t) = a :: t
    rw [ih (fun x hx y hy => h x (by simp [hx]) y (by simp [hy]))]
    cases t with
    | nil => rfl
    | cons b u =>
      show (if cmp a b > 0 then b :: jsInsert cmp a u else a :: b :: u) = _
      rw [if_neg (by rw [h a (by simp) b (by simp)]; omega)]

theorem cmpDateAsc_zero (a b : Task)
    (ha : dueOrInf a.due = JsNum.posInf ∨ dueOrInf a.due = JsNum.nan)
    (hb : dueOrInf b.due = JsNum.posInf ∨ dueOrInf b.due = JsNum.nan) :
    cmpDateAsc a b = 0 := by
  unfold cmpDateAsc
  rcases ha with ha | ha <;> rcases hb with hb | hb <;>
    rw [ha, hb] <;> rfl

/-- Every comparison the dateAsc comparator makes on app data — `due`
either absent or a non-numeric date string — is NaN, hence SortCompare 0,
so the in-place sort leaves the array exactly as it was. -/
theorem dateAsc_sort_noop (l : List Task)
    (h : ∀ t ∈ l, dueOrInf t.due = JsNum.posInf ∨
      dueOrInf t.due = JsNum.nan) :
    jsSortList cmpDateAsc l = l :=
  jsSortList_all_zero cmpDateAsc l
    (fun a hal b hbl => cmpDateAsc_zero a b (h a hal) (h b hbl))

/-- Three concrete tasks for the C4 evaluation: no due date, 2025-01-10 and
2025-01-05. -/
def taskDueNone : Task := sampleTask "n"

def taskDue10 : Task := { sampleTask "p" with due := some "2025-01-10" }

def taskDue05 : Task := { sampleTask "q" with due := some "2025-01-05" }

/-- C4: the dateAsc sort is a no-op on the data the app stores. The
comparator subtracts `due` values that are date strings (or Infinity for a
missing one); ToNumber of a YYYY-MM-DD string is NaN and Infinity minus
Infinity is NaN, so SortCompare sees NaN, treats it as zero, and the stable
sort keeps the input order: the list is returned as [null, 2025-01-10,
2025-01-05], not the claimed [2025-01-05, 2025-01-10, null]. -/
theorem date_asc_no_sort_c4 :
    applyFilters (fun _ => 0) 0
        { searchValue := "", status := "all", category := "all",
          sortKey := "date_asc" } [taskDueNone, taskDue10, taskDue05] =
      [taskDueNone, taskDue10, taskDue05] ∧
    applyFilters (fun _ => 0) 0
        { searchValue := "", status := "all", category := "all",
          sortKey := "date_asc" } [taskDueNone, taskDue10, taskDue05] ≠
      [taskDue05, taskDue10, taskDueNone] := by
  exact ⟨by decide, by decide⟩

/-- Witness for the amended C8 at a concrete input: two same-millisecond
adds with different random suffixes yield distinct ids. -/
theorem add_ids_nodup_c8_witness :
    ((runAdds [] [callA, callB]).map Task.id).Nodup :=
  add_ids_nodup_c8 [] [callA, callB] (by decide)
    (by
      have h : ([callA, callB].map (fun c => uid c.nowMs c.rnd) ++
          ([] : List Task).map Task.id) = ["5aaaa", "5bbbb"] := by decide
      rw [h]
      simp)

end TodoApp
